import Mathlib

/-!
Shallow embedding of the review-session engine of `src/image_reviewer.py`
(class `MainWindow`): the per-image label state (`image_data`), the
incremental `pending_changes` counter, the folder scan of `load_images`,
`toggle_image_label`, and `apply_changes` together with a small model of
the filesystem operations they perform (`os.path.exists`, `shutil.move`).

Modelling conventions:
* Python strings are `String`; absolute paths are plain strings and
  `os.path.abspath` is the identity on them (the program only ever feeds
  it already-absolute, already-normalized paths).
* `image_data` is a Python 3.7+ `dict`, i.e. an insertion-ordered map;
  we embed it as a `List ImageRecord` whose order is both the dict's
  insertion order and the order of the `QListWidget` rows, which the
  program keeps in sync with the dict at all times.
* `pending_changes` is a Python `int`, embedded as `Int`.
* The filesystem is a finite map from path to file content
  (`List (String × Nat)`); `shutil.move` follows `os.rename` semantics:
  it always succeeds and silently replaces an existing destination.
-/

set_option maxHeartbeats 1000000

namespace ImageReviewer

/-- The two categories of the tool: the names of the two subdirectories. -/
inductive Label where
  | center
  | not_center
deriving DecidableEq, Repr

/-- The directory name of a label, as used by `os.path.join(root, label)`. -/
def Label.dirName : Label → String
  | .center => "center"
  | .not_center => "not_center"

/-- The flip `new_label = 'not_center' if old_label == 'center' else 'center'`
of line 532 of `image_reviewer.py`. -/
def Label.flip : Label → Label
  | .center => .not_center
  | .not_center => .center

/-- One entry of `MainWindow.image_data`:
`{path: {'initial_label': str, 'current_label': str}}`. -/
structure ImageRecord where
  path : String
  initial_label : Label
  current_label : Label
deriving DecidableEq, Repr

/-- The dirtiness test `img_info['current_label'] != img_info['initial_label']`. -/
def ImageRecord.isDirty (r : ImageRecord) : Bool :=
  r.current_label != r.initial_label

/-- The session state of `MainWindow`: the ordered map `image_data`
plus the incrementally maintained counter `pending_changes`. -/
structure SessionState where
  image_data : List ImageRecord
  pending_changes : Int
deriving DecidableEq, Repr

/-- Number of records whose current label differs from their initial label. -/
def countDirty (l : List ImageRecord) : Nat :=
  l.countP (fun r => r.isDirty)

/-- Path join `os.path.join` for the already-normalized arguments the program uses. -/
def joinPath (dir name : String) : String := dir ++ "/" ++ name

/-- Basename `os.path.basename`: the component after the last separator. -/
def baseName (p : String) : String :=
  ⟨(p.data.reverse.takeWhile (fun c => c != '/')).reverse⟩

/-! ### Catalog scan (`MainWindow.load_images`, lines 417--437) -/

/-- The tuple `supported_extensions` of line 419. -/
def supportedExtensions : List String :=
  [".png", ".jpg", ".jpeg", ".bmp", ".gif", ".tif", ".tiff"]

/-- The eligibility test `filename.lower().endswith(supported_extensions)`. -/
def isSupportedImage (filename : String) : Bool :=
  supportedExtensions.any (fun ext => filename.toLower.endsWith ext)

/-- One iteration of the discovery loop: the eligible files of one
subdirectory, in `os.listdir` order, paired with that directory's label. -/
def discoverDir (dir : String) (label : Label) (names : List String) :
    List (String × Label) :=
  (names.filter isSupportedImage).map (fun n => (joinPath dir n, label))

/-- The sort key comparison of `image_files.sort(key=lambda item:
os.path.basename(item[0]))`: compare basenames of the full paths. -/
def basenameLE (a b : String × Label) : Bool :=
  decide (baseName a.1 ≤ baseName b.1)

/-- The scan of `load_images`: discover the `center` directory, then the
`not_center` directory, then stably sort by basename (Python's `list.sort`
is a stable merge sort). -/
def scanImages (root : String) (centerNames notCenterNames : List String) :
    List (String × Label) :=
  let discovered :=
    discoverDir (joinPath root "center") Label.center centerNames ++
      discoverDir (joinPath root "not_center") Label.not_center notCenterNames
  discovered.mergeSort basenameLE

/-! ### Session load (`MainWindow.load_images`, lines 443--450) -/

/-- The population loop of `load_images`: for each `(full_path, label)`, add
a record only `if full_path not in self.image_data` (line 445); a duplicate
path is silently skipped, keeping the first occurrence. -/
def loadRecords (input : List (String × Label)) : List ImageRecord :=
  input.foldl
    (fun acc e =>
      if acc.any (fun r => r.path == e.1) then acc
      else acc ++ [{ path := e.1, initial_label := e.2, current_label := e.2 }])
    []

/-- Session load: `clear_images` resets `pending_changes` to 0 and empties
`image_data`, then the population loop fills `image_data`. -/
def loadState (input : List (String × Label)) : SessionState :=
  { image_data := loadRecords input, pending_changes := 0 }

/-! ### Toggle (`MainWindow.toggle_image_label`, lines 521--550) -/

/-- Toggle `toggle_image_label(path)`: if the path is a key of `image_data`, flip
that record's `current_label` and adjust `pending_changes` by comparing the
record's dirtiness before and after (lines 539--545); otherwise fall through
without touching any state (the `if path in self.image_data` guard fails and
the method returns `None`).  The list-item lookup of lines 526--529 always
succeeds because the rows mirror the keys of `image_data`. -/
def toggleLabel (s : SessionState) (path : String) : SessionState :=
  match s.image_data.find? (fun r => r.path == path) with
  | none => s
  | some r =>
      let old_label := r.current_label
      let new_label := old_label.flip
      let records := s.image_data.map
        (fun q => if q.path == path then { q with current_label := new_label } else q)
      let is_now_different := new_label != r.initial_label
      let was_different_before := old_label != r.initial_label
      let pending :=
        if is_now_different && !was_different_before then s.pending_changes + 1
        else if !is_now_different && was_different_before then s.pending_changes - 1
        else s.pending_changes
      { image_data := records, pending_changes := pending }

/-! ### Filesystem model -/

/-- The filesystem: a finite map from existing file path to file content. -/
abbrev FileSystem := List (String × Nat)

/-- Existence test `os.path.exists(p)`. -/
def fsExists (fs : FileSystem) (p : String) : Bool :=
  fs.any (fun e => e.1 == p)

/-- Move `shutil.move(src, dst)` on a POSIX filesystem: an `os.rename`, which
always succeeds when the source exists and silently replaces any existing
file at the destination (the fallback `copy2` + `unlink` path for
cross-device moves overwrites as well). -/
def fsMove (fs : FileSystem) (src dst : String) : FileSystem :=
  match fs.find? (fun e => e.1 == src) with
  | none => fs
  | some e => fs.filter (fun q => q.1 != src && q.1 != dst) ++ [(dst, e.2)]

/-! ### Apply (`MainWindow.apply_changes`, lines 629--724) -/

/-- One entry of the apply report, mirroring the log lines the loop emits:
a successful `shutil.move`, the source-equals-destination skip of lines
659--663, or the missing-source skip of lines 655--657. -/
inductive ApplyEvent where
  | moved (oldPath newPath : String)
  | alreadyApplied (path : String)
  | missingSource (path : String)
deriving DecidableEq, Repr

/-- The accumulator of the per-record loop of `apply_changes`: the evolving
filesystem, the records (with the in-place `initial_label` fixups of line
661), `moved_count`, `error_count`, `paths_to_update_in_data`, and the
report of what happened. -/
structure ApplyLoopState where
  fs : FileSystem
  records : List ImageRecord
  moved_count : Nat
  error_count : Nat
  paths_to_update : List (String × String)
  report : List ApplyEvent
deriving DecidableEq, Repr

/-- The body of `for path, img_info in items_to_process` (lines 646--673). -/
def applyStep (root : String) (st : ApplyLoopState) (r : ImageRecord) :
    ApplyLoopState :=
  if r.current_label != r.initial_label then
    let src := r.path
    let dst := joinPath (joinPath root r.current_label.dirName) (baseName r.path)
    if !fsExists st.fs src then
      { st with records := st.records ++ [r],
                error_count := st.error_count + 1,
                report := st.report ++ [ApplyEvent.missingSource src] }
    else if src == dst then
      { st with records := st.records ++ [{ r with initial_label := r.current_label }],
                moved_count := st.moved_count + 1,
                report := st.report ++ [ApplyEvent.alreadyApplied src] }
    else
      { st with fs := fsMove st.fs src dst,
                records := st.records ++ [r],
                moved_count := st.moved_count + 1,
                paths_to_update := st.paths_to_update ++ [(src, dst)],
                report := st.report ++ [ApplyEvent.moved src dst] }
  else
    { st with records := st.records ++ [r] }

/-- Assignment `new_image_data[key] = value` into a Python dict: an existing
key keeps its position and gets the new value, a fresh key is appended. -/
def dictInsert (d : List ImageRecord) (r : ImageRecord) : List ImageRecord :=
  if d.any (fun q => q.path == r.path) then
    d.map (fun q => if q.path == r.path then r else q)
  else d ++ [r]

/-- The reconciliation loop of lines 681--708: walk the rows in session
order rebuilding `new_image_data`; a moved row is re-keyed to its new path
with `initial_label` set to `current_label`, every other row keeps its
entry (its path is always a live key of `image_data`, keys being unique). -/
def reconcile (updates : List (String × String)) (records : List ImageRecord) :
    List ImageRecord :=
  records.foldl
    (fun acc r =>
      match updates.find? (fun u => u.1 == r.path) with
      | some u => dictInsert acc { r with path := u.2, initial_label := r.current_label }
      | none => dictInsert acc r)
    []

/-- Apply `apply_changes` for a loaded session (`root_folder` set): return
unchanged if `pending_changes == 0` (lines 632--634); otherwise run the
per-record loop over `image_data` in order, rebuild `image_data` through
the reconciliation loop when any move succeeded, subtract `moved_count`
from `pending_changes` and clamp at zero (lines 719--720). -/
def applyChanges (root : String) (s : SessionState) (fs : FileSystem) :
    SessionState × FileSystem × List ApplyEvent :=
  if s.pending_changes == 0 then (s, fs, [])
  else
    let st := s.image_data.foldl (applyStep root)
      { fs := fs, records := [], moved_count := 0, error_count := 0,
        paths_to_update := [], report := [] }
    let records :=
      if st.paths_to_update.isEmpty then st.records
      else reconcile st.paths_to_update st.records
    let pending := s.pending_changes - (st.moved_count : Int)
    let clamped := if pending < 0 then 0 else pending
    ({ image_data := records, pending_changes := clamped }, st.fs, st.report)

/-- The destination the loop computes for a record:
`os.path.join(root, current_label, basename(path))`. -/
def destOf (root : String) (r : ImageRecord) : String :=
  joinPath (joinPath root r.current_label.dirName) (baseName r.path)

/-- The post-apply shape of one record when its source exists on disk at
apply time: the key moves to the destination (for an already-applied record
the destination IS the old path) and the label is committed; all other
records are untouched. -/
def movedFix (root : String) (fs : FileSystem) (q : ImageRecord) : ImageRecord :=
  if q.isDirty && fsExists fs q.path then
    { q with path := destOf root q, initial_label := q.current_label }
  else q

/-- The in-loop `initial_label` fixup of line 661, applied exactly to the
dirty records whose source exists and already equals the destination. -/
def aaFix (root : String) (fs : FileSystem) (q : ImageRecord) : ImageRecord :=
  if q.isDirty && fsExists fs q.path && (q.path == destOf root q) then
    { q with initial_label := q.current_label }
  else q

/-- A record the loop will actually `shutil.move`: dirty, source present,
and source different from destination. -/
def isMovable (root : String) (fs : FileSystem) (q : ImageRecord) : Bool :=
  q.isDirty && fsExists fs q.path && !(q.path == destOf root q)

/-- The expected `paths_to_update_in_data` contents, in session order. -/
def movedPairs (root : String) (fs : FileSystem) (l : List ImageRecord) :
    List (String × String) :=
  l.filterMap (fun q =>
    if isMovable root fs q then some (q.path, destOf root q) else none)

/-- The expected report entry for one record of the apply loop. -/
def eventFor (root : String) (fs : FileSystem) (q : ImageRecord) :
    Option ApplyEvent :=
  if !q.isDirty then none
  else if !fsExists fs q.path then some (ApplyEvent.missingSource q.path)
  else if q.path == destOf root q then some (ApplyEvent.alreadyApplied q.path)
  else some (ApplyEvent.moved q.path (destOf root q))

/-! ### Spec-side definitions, for comparison with the code

These two definitions follow the words of the specification, not the
source; they exist only to state refinement counterexamples. -/

/-- The failure signals named by the specification. -/
inductive SpecError where
  | notFound
  | invariantViolation
deriving DecidableEq, Repr

/-- Spec-side `toggle_label`: per the specification it must fail with
`NotFound` when the path is not a key of the session. -/
def toggleLabelSpec (s : SessionState) (path : String) :
    Except SpecError SessionState :=
  if s.image_data.any (fun r => r.path == path) then Except.ok (toggleLabel s path)
  else Except.error SpecError.notFound

/-- Spec-side `load`: per the specification it must fail fast with
`InvariantViolation` when the input contains a duplicated path. -/
def loadSpec (input : List (String × Label)) : Except SpecError SessionState :=
  if (input.map Prod.fst).Nodup then Except.ok (loadState input)
  else Except.error SpecError.invariantViolation

/-! ### C8 -/

/-- The discovery-order list of `load_images`: all eligible files of the
`center` subdirectory (in listing order), then all eligible files of the
`not_center` subdirectory. -/
def discoveredFiles (root : String) (centerNames notCenterNames : List String) :
    List (String × Label) :=
  discoverDir (joinPath root "center") Label.center centerNames ++
    discoverDir (joinPath root "not_center") Label.not_center notCenterNames

/-- The keys of an ordered record map, in order. -/
def recPaths (l : List ImageRecord) : List String := l.map (fun r => r.path)


/-- The per-row rewrite of the reconciliation loop: a row whose old path has
a recorded move is re-keyed and committed, any other row is kept as is. -/
def stepRec (updates : List (String × String)) (r : ImageRecord) : ImageRecord :=
  match updates.find? (fun u => u.1 == r.path) with
  | some u => { r with path := u.2, initial_label := r.current_label }
  | none => r


/-! ### Concrete fixtures -/

/-- A dirty record whose destination is `r/center/x.jpg`. -/
def recCollideA : ImageRecord :=
  { path := "r/d1/x.jpg", initial_label := .not_center, current_label := .center }

/-- A second, distinct dirty record with the same destination `r/center/x.jpg`. -/
def recCollideB : ImageRecord :=
  { path := "r/d2/x.jpg", initial_label := .not_center, current_label := .center }

/-- A session holding the two colliding dirty records, counter in sync. -/
def sessionCollision : SessionState :=
  { image_data := [recCollideA, recCollideB], pending_changes := 2 }

/-- A filesystem holding the two source files, with distinct contents. -/
def fsCollision : FileSystem := [("r/d1/x.jpg", 1), ("r/d2/x.jpg", 2)]

/-- A clean one-record session used by the no-op fixtures. -/
def sessionClean : SessionState :=
  { image_data :=
      [{ path := "r/center/a.jpg", initial_label := .center, current_label := .center }],
    pending_changes := 0 }

/-- A committed record keyed `r/center/x.jpg` (both labels center).  It
plays two roles in the failing apply runs below: it is the stale clean
record whose on-disk file was deleted externally, and it is also, field for
field, the post-move committed form of `recDirtyToCenter`. -/
def recXCommitted : ImageRecord :=
  { path := "r/center/x.jpg", initial_label := .center, current_label := .center }

/-- A dirty record at `r/not_center/x.jpg` relabeled to center: its move
destination is `r/center/x.jpg`. -/
def recDirtyToCenter : ImageRecord :=
  { path := "r/not_center/x.jpg", initial_label := .not_center, current_label := .center }

/-- A dirty record at `r/center/x.jpg` relabeled to not_center, whose
source file has been deleted externally. -/
def recDirtyMissing : ImageRecord :=
  { path := "r/center/x.jpg", initial_label := .center, current_label := .not_center }

/-- The C4 failing session: the stale clean record, then the dirty record
whose successful move lands exactly on the stale record's session key. -/
def sessionStaleMerge : SessionState :=
  { image_data := [recXCommitted, recDirtyToCenter], pending_changes := 1 }

/-- The C6 failing session: the missing-source dirty record, then a dirty
record whose successful move lands exactly on the missing record's key. -/
def sessionMissingClobber : SessionState :=
  { image_data := [recDirtyMissing, recDirtyToCenter], pending_changes := 2 }

/-- The disk for both failing runs: only `r/not_center/x.jpg` exists. -/
def fsOnlyNotCenter : FileSystem := [("r/not_center/x.jpg", 2)]


lemma basenameLE_trans (a b c : String × Label)
    (h1 : basenameLE a b) (h2 : basenameLE b c) : basenameLE a c := by
  simp only [basenameLE, decide_eq_true_eq] at *
  exact le_trans h1 h2

lemma basenameLE_total (a b : String × Label) : basenameLE a b || basenameLE b a := by
  simp only [basenameLE, Bool.or_eq_true, decide_eq_true_eq]
  exact le_total (baseName a.1) (baseName b.1)

/-- C8: the scan output is the discovery list stably sorted by filename
(basename of the full path, not the full path) ascending: it is pairwise
ordered by basename, it is a permutation of the discovery list, and for
every basename the scan preserves the discovery order of the files bearing
it (in particular, on a tie all files of the `center` directory precede
those of the `not_center` directory, since discovery lists `center`
first). -/
theorem scan_sorted_stable_by_basename (root : String)
    (centerNames notCenterNames : List String) :
    (scanImages root centerNames notCenterNames).Pairwise
        (fun a b => baseName a.1 ≤ baseName b.1) ∧
      List.Perm (scanImages root centerNames notCenterNames)
        (discoveredFiles root centerNames notCenterNames) ∧
      ∀ b : String,
        (scanImages root centerNames notCenterNames).filter
            (fun e => baseName e.1 == b) =
          (discoveredFiles root centerNames notCenterNames).filter
            (fun e => baseName e.1 == b) := by
  have hscan : scanImages root centerNames notCenterNames =
      (discoveredFiles root centerNames notCenterNames).mergeSort basenameLE := rfl
  refine ⟨?_, ?_, ?_⟩
  · rw [hscan]
    have h := List.sorted_mergeSort basenameLE_trans basenameLE_total
      (discoveredFiles root centerNames notCenterNames)
    exact h.imp (fun hab => by simpa [basenameLE] using hab)
  · rw [hscan]
    exact List.mergeSort_perm _ _
  · intro b
    rw [hscan]
    set input := discoveredFiles root centerNames notCenterNames with hinput
    have hpw : (input.filter (fun e => baseName e.1 == b)).Pairwise
        (fun x y => basenameLE x y = true) := by
      apply List.pairwise_of_forall_mem_list
      intro x hx y hy
      have hxb : baseName x.1 = b := by
        have := List.of_mem_filter hx
        simpa using this
      have hyb : baseName y.1 = b := by
        have := List.of_mem_filter hy
        simpa using this
      simp [basenameLE, hxb, hyb]
    have hsub : List.Sublist (input.filter (fun e => baseName e.1 == b))
        (input.mergeSort basenameLE) :=
      List.sublist_mergeSort basenameLE_trans basenameLE_total hpw
        (List.filter_sublist input)
    have hsub2 : List.Sublist (input.filter (fun e => baseName e.1 == b))
        ((input.mergeSort basenameLE).filter (fun e => baseName e.1 == b)) := by
      have h3 := hsub.filter (fun e => baseName e.1 == b)
      rwa [List.filter_filter, show (fun a : String × Label =>
          ((baseName a.1 == b) && (baseName a.1 == b))) =
          (fun a : String × Label => (baseName a.1 == b)) from
        funext (fun a => Bool.and_self _)] at h3
    have hperm : List.Perm
        ((input.mergeSort basenameLE).filter (fun e => baseName e.1 == b))
        (input.filter (fun e => baseName e.1 == b)) :=
      (List.mergeSort_perm input basenameLE).filter _
    exact (hsub2.eq_of_length hperm.length_eq.symm).symm

/-! ### Helper lemmas about records and toggling -/

lemma recPaths_update (l : List ImageRecord) (p : String) (nl : Label) :
    recPaths (l.map (fun q =>
      if q.path == p then { q with current_label := nl } else q)) = recPaths l := by
  unfold recPaths
  rw [List.map_map]
  apply List.map_congr_left
  intro a _
  simp only [Function.comp]
  split <;> rfl

lemma countDirty_cons_int (r : ImageRecord) (l : List ImageRecord) :
    (countDirty (r :: l) : Int) =
      (countDirty l : Int) + (if r.isDirty then (1 : Int) else 0) := by
  by_cases h : r.isDirty <;> simp [countDirty, List.countP_cons, h]

lemma countDirty_update (p : String) (nl : Label) :
    ∀ (l : List ImageRecord) (w : ImageRecord),
      (recPaths l).Nodup →
      l.find? (fun q => q.path == p) = some w →
      (countDirty (l.map (fun q =>
          if q.path == p then { q with current_label := nl } else q)) : Int) =
        (countDirty l : Int) + (if nl != w.initial_label then (1 : Int) else 0)
          - (if w.isDirty then (1 : Int) else 0)
  | [], w, _, hfind => by simp at hfind
  | h :: t, w, hnd, hfind => by
    have hnd2 : h.path ∉ List.map (fun r => r.path) t ∧
        (List.map (fun r => r.path) t).Nodup := by
      have h2 := hnd
      simp only [recPaths, List.map_cons, List.nodup_cons] at h2
      exact h2
    by_cases hph : h.path == p
    · have hfind2 : List.find? (fun q => q.path == p) (h :: t) = some h := by
        simp [hph]
      rw [hfind] at hfind2
      have hw : w = h := Option.some.inj hfind2
      subst hw
      have hpt : ∀ q ∈ t, (q.path == p) = false := by
        intro q hq
        have : q.path ≠ p := by
          intro hqp
          exact hnd2.1 (by
            simp only [List.mem_map]
            exact ⟨q, hq, hqp.trans (eq_of_beq hph).symm⟩)
        simpa using this
      have ht : t.map (fun q =>
          if q.path == p then { q with current_label := nl } else q) = t := by
        have h1 : t.map (fun q =>
            if q.path == p then { q with current_label := nl } else q) = t.map id :=
          List.map_congr_left (fun q hq => by simp [hpt q hq])
        rw [h1, List.map_id]
      simp only [List.map_cons, hph, if_true, ht]
      rw [countDirty_cons_int, countDirty_cons_int]
      simp only [ImageRecord.isDirty]
      split_ifs <;> simp_all
    · have hfind2 : List.find? (fun q => q.path == p) (h :: t) =
          List.find? (fun q => q.path == p) t := by
        simp [hph]
      rw [hfind2] at hfind
      have hnd' : (recPaths t).Nodup := hnd2.2
      have ih := countDirty_update p nl t w hnd' hfind
      simp only [List.map_cons, hph, if_false]
      rw [countDirty_cons_int, countDirty_cons_int, ih]
      simp [hph]
      ring

lemma toggleLabel_of_find?_some {s : SessionState} {p : String} {w : ImageRecord}
    (hfind : s.image_data.find? (fun r => r.path == p) = some w) :
    toggleLabel s p =
      { image_data := s.image_data.map (fun q =>
          if q.path == p then { q with current_label := w.current_label.flip } else q),
        pending_changes :=
          if (w.current_label.flip != w.initial_label) &&
              !(w.current_label != w.initial_label) then s.pending_changes + 1
          else if !(w.current_label.flip != w.initial_label) &&
              (w.current_label != w.initial_label) then s.pending_changes - 1
          else s.pending_changes } := by
  unfold toggleLabel
  rw [hfind]

lemma toggleLabel_of_find?_none {s : SessionState} {p : String}
    (hfind : s.image_data.find? (fun r => r.path == p) = none) :
    toggleLabel s p = s := by
  unfold toggleLabel
  rw [hfind]

lemma toggleLabel_invariant (s : SessionState) (p : String)
    (hnd : (recPaths s.image_data).Nodup)
    (hinv : s.pending_changes = (countDirty s.image_data : Int)) :
    (toggleLabel s p).pending_changes = (countDirty (toggleLabel s p).image_data : Int) ∧
      (recPaths (toggleLabel s p).image_data).Nodup := by
  cases hfind : s.image_data.find? (fun r => r.path == p) with
  | none => rw [toggleLabel_of_find?_none hfind]; exact ⟨hinv, hnd⟩
  | some w =>
      rw [toggleLabel_of_find?_some hfind]
      refine ⟨?_, by rw [recPaths_update s.image_data p w.current_label.flip]; exact hnd⟩
      rw [countDirty_update p w.current_label.flip s.image_data w hnd hfind, hinv]
      cases hc : w.current_label <;> cases hi : w.initial_label <;>
        simp [Label.flip, ImageRecord.isDirty, hc, hi]

lemma find?_congr_pred {α : Type} (f g : α → Bool) :
    ∀ (l : List α), (∀ a ∈ l, f a = g a) → l.find? f = l.find? g
  | [], _ => rfl
  | a :: l, h => by
    by_cases ha : f a
    · rw [List.find?_cons_of_pos l ha, List.find?_cons_of_pos l ((h a (by simp)) ▸ ha)]
    · rw [List.find?_cons_of_neg l ha, List.find?_cons_of_neg l ((h a (by simp)) ▸ ha),
        find?_congr_pred f g l (fun b hb => h b (by simp [hb]))]

lemma loadRecords_aux :
    ∀ (input : List (String × Label)) (acc : List ImageRecord),
      (recPaths acc).Nodup → (∀ r ∈ acc, r.current_label = r.initial_label) →
      (recPaths (input.foldl
          (fun acc e =>
            if acc.any (fun r => r.path == e.1) then acc
            else acc ++ [{ path := e.1, initial_label := e.2, current_label := e.2 }])
          acc)).Nodup ∧
        ∀ r ∈ input.foldl
          (fun acc e =>
            if acc.any (fun r => r.path == e.1) then acc
            else acc ++ [{ path := e.1, initial_label := e.2, current_label := e.2 }])
          acc, r.current_label = r.initial_label
  | [], _, h1, h2 => ⟨h1, h2⟩
  | e :: rest, acc, h1, h2 => by
    rw [List.foldl_cons]
    by_cases hmem : acc.any (fun r => r.path == e.1)
    · dsimp only
      rw [if_pos hmem]
      exact loadRecords_aux rest acc h1 h2
    · dsimp only
      rw [if_neg hmem]
      have hnotin : e.1 ∉ recPaths acc := by
        intro hin
        simp only [recPaths, List.mem_map] at hin
        obtain ⟨r, hr, hrp⟩ := hin
        have hfalse : acc.any (fun r => r.path == e.1) = false := by simpa using hmem
        have := List.any_eq_false.mp hfalse r hr
        simp [hrp] at this
      refine loadRecords_aux rest _ ?_ ?_
      · simp only [recPaths, List.map_append, List.map_cons, List.map_nil]
        rw [List.nodup_append]
        exact ⟨h1, List.nodup_singleton _, by
          intro a ha hb
          simp only [List.mem_singleton] at hb
          exact hnotin (hb ▸ ha)⟩
      · intro r hr
        rcases List.mem_append.mp hr with hl | hr2
        · exact h2 r hl
        · simp only [List.mem_singleton] at hr2
          subst hr2
          rfl

lemma loadState_invariant (input : List (String × Label)) :
    (recPaths (loadState input).image_data).Nodup ∧
      (loadState input).pending_changes =
        (countDirty (loadState input).image_data : Int) := by
  have h := loadRecords_aux input [] (by simp [recPaths]) (by simp)
  have hz : countDirty (loadRecords input) = 0 :=
    List.countP_eq_zero.mpr (fun r hr => by
      simp [ImageRecord.isDirty, h.2 r hr])
  exact ⟨h.1, by simp [loadState, hz]⟩

lemma loadRecords_find_preserved :
    ∀ (input : List (String × Label)) (acc : List ImageRecord)
      (pr : ImageRecord → Bool) (v : ImageRecord),
      acc.find? pr = some v →
      (input.foldl
        (fun a x =>
          if a.any (fun r => r.path == x.1) then a
          else a ++ [{ path := x.1, initial_label := x.2, current_label := x.2 }])
        acc).find? pr = some v
  | [], _, _, _, h => h
  | x :: rest, acc, pr, v, h => by
    rw [List.foldl_cons]
    by_cases hx : acc.any (fun r => r.path == x.1)
    · rw [if_pos hx]
      exact loadRecords_find_preserved rest acc pr v h
    · rw [if_neg hx]
      apply loadRecords_find_preserved
      rw [List.find?_append, h]
      rfl

lemma loadRecords_find_first :
    ∀ (input : List (String × Label)) (acc : List ImageRecord)
      (p : String) (e : String × Label),
      input.find? (fun x => x.1 == p) = some e →
      acc.any (fun r => r.path == p) = false →
      (input.foldl
        (fun a x =>
          if a.any (fun r => r.path == x.1) then a
          else a ++ [{ path := x.1, initial_label := x.2, current_label := x.2 }])
        acc).find? (fun r => r.path == p) =
        some { path := e.1, initial_label := e.2, current_label := e.2 }
  | [], _, _, _, hfind, _ => by simp at hfind
  | x :: rest, acc, p, e, hfind, hacc => by
    rw [List.foldl_cons]
    by_cases hx1 : x.1 == p
    · have hfind2 : (x :: rest).find? (fun y => y.1 == p) = some x := by simp [hx1]
      rw [hfind] at hfind2
      have hex : e = x := Option.some.inj hfind2
      subst hex
      have hx1' : e.1 = p := eq_of_beq hx1
      have hany : acc.any (fun r => r.path == e.1) = false := by rw [hx1']; exact hacc
      rw [if_neg (by simp [hany])]
      apply loadRecords_find_preserved
      rw [List.find?_append]
      have haccnone : acc.find? (fun r => r.path == p) = none :=
        List.find?_eq_none.mpr (fun r hr => by
          simp [List.any_eq_false.mp hacc r hr])
      rw [haccnone]
      simp [hx1]
    · have hfind2 : (x :: rest).find? (fun y => y.1 == p) =
          rest.find? (fun y => y.1 == p) := by simp [hx1]
      rw [hfind2] at hfind
      by_cases hx : acc.any (fun r => r.path == x.1)
      · rw [if_pos hx]
        exact loadRecords_find_first rest acc p e hfind hacc
      · rw [if_neg hx]
        apply loadRecords_find_first rest _ p e hfind
        have hx1f : (x.1 == p) = false := by simpa using hx1
        simp [List.any_append, hacc, hx1f]

/-! ### C3 (amended) -/

/-- C3 (amended): session load never fails on a duplicated input path; it
silently keeps exactly the first occurrence of each path: the loaded map
has unique keys, and looking up a path yields a record carrying the label
of the input's FIRST entry for that path (later duplicates are dropped). -/
theorem load_keeps_first_occurrence (input : List (String × Label))
    (e : String × Label)
    (hfirst : input.find? (fun x => x.1 == e.1) = some e) :
    (recPaths (loadState input).image_data).Nodup ∧
      (loadState input).image_data.find? (fun r => r.path == e.1) =
        some { path := e.1, initial_label := e.2, current_label := e.2 } := by
  constructor
  · exact (loadRecords_aux input [] (by simp [recPaths]) (by simp)).1
  · unfold loadState loadRecords
    exact loadRecords_find_first input [] e.1 e hfirst rfl

/-- Witness for the amended C3 at a duplicated concrete input. -/
theorem load_keeps_first_occurrence_witness :
    (recPaths (loadState
        [("r/center/x.jpg", Label.center),
         ("r/center/x.jpg", Label.not_center)]).image_data).Nodup ∧
      (loadState [("r/center/x.jpg", Label.center),
         ("r/center/x.jpg", Label.not_center)]).image_data.find?
          (fun r => r.path == "r/center/x.jpg") =
        some { path := "r/center/x.jpg", initial_label := Label.center,
               current_label := Label.center } :=
  load_keeps_first_occurrence
    [("r/center/x.jpg", Label.center), ("r/center/x.jpg", Label.not_center)]
    ("r/center/x.jpg", Label.center) (by decide)

/-! ### C1 -/

/-- C1: for every sequence of toggle operations applied to a loaded session,
the maintained `pending_changes` counter equals the number of records whose
`current_label` differs from `initial_label`; the counter is maintained
incrementally by `toggleLabel` (which only compares the toggled record's
dirtiness before and after), never by rescanning all records. -/
theorem toggle_sequences_pending_eq_countDirty
    (input : List (String × Label)) (ps : List String) :
    (ps.foldl toggleLabel (loadState input)).pending_changes =
      (countDirty (ps.foldl toggleLabel (loadState input)).image_data : Int) := by
  suffices h : ∀ (s : SessionState),
      (recPaths s.image_data).Nodup →
      s.pending_changes = (countDirty s.image_data : Int) →
      (ps.foldl toggleLabel s).pending_changes =
        (countDirty (ps.foldl toggleLabel s).image_data : Int) ∧
        (recPaths (ps.foldl toggleLabel s).image_data).Nodup by
    obtain ⟨hnd, hinv⟩ := loadState_invariant input
    exact (h (loadState input) hnd hinv).1
  induction ps with
  | nil => intro s h1 h2; exact ⟨h2, h1⟩
  | cons p rest ih =>
    intro s h1 h2
    rw [List.foldl_cons]
    obtain ⟨h2', h1'⟩ := toggleLabel_invariant s p h1 h2
    exact ih (toggleLabel s p) h1' h2'

/-! ### C9 -/

/-- C9: toggling the label of a path twice in succession returns the session
to exactly the state before the first toggle: every record's `current_label`
is restored and `pending_changes` is restored (the two incremental counter
adjustments cancel). -/
theorem toggle_twice_id (s : SessionState) (p : String)
    (hnd : (recPaths s.image_data).Nodup) :
    toggleLabel (toggleLabel s p) p = s := by
  cases hfind : s.image_data.find? (fun r => r.path == p) with
  | none =>
    rw [toggleLabel_of_find?_none hfind, toggleLabel_of_find?_none hfind]
  | some w =>
    have hw_mem : w ∈ s.image_data := List.mem_of_find?_eq_some hfind
    have hw_path : (w.path == p) = true := by
      have := List.find?_some hfind
      simpa using this
    rw [toggleLabel_of_find?_some hfind]
    have hfind1 : (s.image_data.map (fun q =>
        if q.path == p then { q with current_label := w.current_label.flip } else q)).find?
          (fun r => r.path == p) =
        some { w with current_label := w.current_label.flip } := by
      rw [List.find?_map]
      have hcong : s.image_data.find? ((fun r => r.path == p) ∘ (fun q =>
          if q.path == p then { q with current_label := w.current_label.flip } else q)) =
          s.image_data.find? (fun q => q.path == p) := by
        apply find?_congr_pred
        intro a _
        simp only [Function.comp]
        split <;> rfl
      rw [hcong, hfind]
      simp only [Option.map_some']
      rw [if_pos hw_path]
    rw [toggleLabel_of_find?_some hfind1]
    have hflip : w.current_label.flip.flip = w.current_label := by
      cases w.current_label <;> rfl
    have hinj := List.inj_on_of_nodup_map (by simpa [recPaths] using hnd)
    have hrec : (s.image_data.map (fun q =>
        if q.path == p then { q with current_label := w.current_label.flip } else q)).map
          (fun q => if q.path == p then
            { q with current_label := w.current_label.flip.flip } else q) =
        s.image_data := by
      rw [List.map_map]
      have h1 : s.image_data.map ((fun q => if q.path == p then
            { q with current_label := w.current_label.flip.flip } else q) ∘ (fun q =>
            if q.path == p then { q with current_label := w.current_label.flip } else q)) =
          s.image_data.map id := by
        apply List.map_congr_left
        intro q hq
        by_cases hqp : q.path == p
        · have hqw : q = w := hinj hq hw_mem
            ((eq_of_beq hqp).trans (eq_of_beq hw_path).symm)
          subst hqw
          simp only [Function.comp, hqp, if_true, hflip, id]
        · have hq2 : (q.path == p) = false := by simpa using hqp
          simp [Function.comp, hq2]
      rw [h1, List.map_id]
    have hpend :
        (if (w.current_label.flip.flip != w.initial_label) &&
            !(w.current_label.flip != w.initial_label) then
          (if (w.current_label.flip != w.initial_label) &&
              !(w.current_label != w.initial_label) then s.pending_changes + 1
            else if !(w.current_label.flip != w.initial_label) &&
              (w.current_label != w.initial_label) then s.pending_changes - 1
            else s.pending_changes) + 1
        else if !(w.current_label.flip.flip != w.initial_label) &&
            (w.current_label.flip != w.initial_label) then
          (if (w.current_label.flip != w.initial_label) &&
              !(w.current_label != w.initial_label) then s.pending_changes + 1
            else if !(w.current_label.flip != w.initial_label) &&
              (w.current_label != w.initial_label) then s.pending_changes - 1
            else s.pending_changes) - 1
        else
          (if (w.current_label.flip != w.initial_label) &&
              !(w.current_label != w.initial_label) then s.pending_changes + 1
            else if !(w.current_label.flip != w.initial_label) &&
              (w.current_label != w.initial_label) then s.pending_changes - 1
            else s.pending_changes)) = s.pending_changes := by
      cases hc : w.current_label <;> cases hi : w.initial_label <;>
        simp [Label.flip, hc, hi]
    have hs : s = ⟨s.image_data, s.pending_changes⟩ := rfl
    rw [hs]
    simp only [SessionState.mk.injEq]
    exact ⟨hrec, hpend⟩

/-- Witness for C9 at a concrete one-record session. -/
theorem toggle_twice_id_witness :
    toggleLabel (toggleLabel sessionClean "r/center/a.jpg") "r/center/a.jpg" =
      sessionClean :=
  toggle_twice_id sessionClean "r/center/a.jpg" (by decide)

/-- C10: after every apply operation the pending-changes counter is
nonnegative; the post-apply decrement `pending_changes -= moved_count` is
clamped at zero. -/
theorem apply_pending_nonneg (root : String) (s : SessionState) (fs : FileSystem) :
    0 ≤ ((applyChanges root s fs).1).pending_changes := by
  unfold applyChanges
  split
  · rename_i h
    simp only [beq_iff_eq] at h
    simp [h]
  · dsimp only
    split
    · exact le_refl 0
    · rename_i h2
      omega

/-! ### C7 -/

/-- C7: calling apply on a session whose pending-changes counter is 0
returns an empty report and performs no filesystem mutation and no
session-state mutation. -/
theorem apply_no_pending_is_noop (root : String) (s : SessionState) (fs : FileSystem)
    (h : s.pending_changes = 0) : applyChanges root s fs = (s, fs, []) := by
  unfold applyChanges
  simp [h]

/-- Witness for C7 at a concrete clean session. -/
theorem apply_no_pending_is_noop_witness :
    applyChanges "r" sessionClean [("r/center/a.jpg", 1)] =
      (sessionClean, [("r/center/a.jpg", 1)], []) :=
  apply_no_pending_is_noop "r" sessionClean [("r/center/a.jpg", 1)] rfl

/-! ### C2 -/

/-- C2 (code bug): with two distinct dirty records both resolving to the
destination `r/center/x.jpg`, the code reports `Moved` for BOTH records (no
`MoveFailed`), the second `shutil.move` silently overwrites the first moved
file (the surviving file at `r/center/x.jpg` has the second record's
content `2`, content `1` is gone), the two records are merged into a single
session entry, and `pending_changes` decreases by 2 (from 2 to 0), not
by 1. -/
theorem apply_name_collision_overwrites :
    applyChanges "r" sessionCollision fsCollision =
      ({ image_data :=
           [{ path := "r/center/x.jpg", initial_label := .center,
              current_label := .center }],
         pending_changes := 0 },
       [("r/center/x.jpg", 2)],
       [ApplyEvent.moved "r/d1/x.jpg" "r/center/x.jpg",
        ApplyEvent.moved "r/d2/x.jpg" "r/center/x.jpg"]) := by
  decide

/-! ### C3 -/

/-- Counterexample for C3: on an input with a duplicated path, the load of
the code completes normally and silently merges the two entries into one
record (keeping the first occurrence's label), whereas the specification's
load fails fast with `InvariantViolation`. -/
theorem load_duplicate_silently_merges_cex :
    loadState [("r/center/x.jpg", Label.center), ("r/center/x.jpg", Label.not_center)] =
      { image_data :=
          [{ path := "r/center/x.jpg", initial_label := .center,
             current_label := .center }],
        pending_changes := 0 } ∧
    loadSpec [("r/center/x.jpg", Label.center), ("r/center/x.jpg", Label.not_center)] =
      Except.error SpecError.invariantViolation :=
  ⟨by decide, rfl⟩

/-! ### C5 -/

/-- Counterexample for C5: toggling a path that is not a key of the session
does not fail: the code completes normally and returns the state unchanged,
whereas the specification's toggle fails with `NotFound`. -/
theorem toggle_unknown_no_error_cex :
    toggleLabel sessionClean "r/center/zzz.jpg" = sessionClean ∧
    toggleLabelSpec sessionClean "r/center/zzz.jpg" =
      Except.error SpecError.notFound :=
  ⟨by decide, rfl⟩

/-- C5 (amended): toggling the label of a path that is not a key of the
session is a silent no-op: the session state is returned unchanged and no
error is signaled. -/
theorem toggle_unknown_is_noop (s : SessionState) (p : String)
    (h : s.image_data.any (fun r => r.path == p) = false) :
    toggleLabel s p = s := by
  have hf : s.image_data.find? (fun r => r.path == p) = none := by
    rw [List.find?_eq_none]
    intro x hx
    have := List.any_eq_false.mp h x hx
    simp [this]
  unfold toggleLabel
  rw [hf]

/-- Witness for the amended C5 at a concrete unknown path. -/
theorem toggle_unknown_is_noop_witness :
    toggleLabel sessionClean "r/center/zzz.jpg" = sessionClean :=
  toggle_unknown_is_noop sessionClean "r/center/zzz.jpg" (by decide)

/-! ### The apply loop, characterized -/

lemma applyStep_unfold (root : String) (st : ApplyLoopState) (r : ImageRecord) :
    applyStep root st r =
      if r.isDirty then
        if !fsExists st.fs r.path then
          { st with records := st.records ++ [r],
                    error_count := st.error_count + 1,
                    report := st.report ++ [ApplyEvent.missingSource r.path] }
        else if r.path == destOf root r then
          { st with records := st.records ++ [{ r with initial_label := r.current_label }],
                    moved_count := st.moved_count + 1,
                    report := st.report ++ [ApplyEvent.alreadyApplied r.path] }
        else
          { st with fs := fsMove st.fs r.path (destOf root r),
                    records := st.records ++ [r],
                    moved_count := st.moved_count + 1,
                    paths_to_update := st.paths_to_update ++ [(r.path, destOf root r)],
                    report := st.report ++ [ApplyEvent.moved r.path (destOf root r)] }
      else { st with records := st.records ++ [r] } := rfl

lemma fsExists_fsMove (fs : FileSystem) (src dst x : String)
    (hsrc : fsExists fs src = true) :
    fsExists (fsMove fs src dst) x =
      if x = dst then true else if x = src then false else fsExists fs x := by
  obtain ⟨e, he, hesrc⟩ := List.any_eq_true.mp hsrc
  obtain ⟨v, hv⟩ : ∃ v, fs.find? (fun q => q.1 == src) = some v := by
    cases hf : fs.find? (fun q => q.1 == src) with
    | none => exact absurd hesrc (List.find?_eq_none.mp hf e he)
    | some v => exact ⟨v, rfl⟩
  unfold fsMove
  rw [hv]
  by_cases hdst : x = dst
  · subst hdst
    simp [fsExists, List.any_append]
  · by_cases hsx : x = src
    · subst hsx
      rw [if_neg hdst, if_pos rfl]
      apply List.any_eq_false.mpr
      intro q hq
      rcases List.mem_append.mp hq with hq1 | hq2
      · have hfilt := (List.mem_filter.mp hq1).2
        simp only [Bool.and_eq_true, bne_iff_ne] at hfilt
        simp [hfilt.1]
      · simp only [List.mem_singleton] at hq2
        subst hq2
        simp only []
        intro hcontra
        exact hdst ((eq_of_beq hcontra).symm)
    · rw [if_neg hdst, if_neg hsx]
      by_cases hfx : fsExists fs x = true
      · rw [hfx]
        obtain ⟨w, hw, hwx⟩ := List.any_eq_true.mp hfx
        apply List.any_eq_true.mpr
        have hwxeq : w.1 = x := by simpa using hwx
        refine ⟨w, List.mem_append_left _ (List.mem_filter.mpr ⟨hw, ?_⟩), hwx⟩
        simp only [Bool.and_eq_true, bne_iff_ne]
        exact ⟨by rw [hwxeq]; exact hsx, by rw [hwxeq]; exact hdst⟩
      · have hfx2 : fsExists fs x = false := by simpa using hfx
        rw [hfx2]
        apply List.any_eq_false.mpr
        intro q hq
        rcases List.mem_append.mp hq with hq1 | hq2
        · have hmem := (List.mem_filter.mp hq1).1
          have := List.any_eq_false.mp hfx2 q hmem
          simpa using this
        · simp only [List.mem_singleton] at hq2
          subst hq2
          simp only []
          intro hcontra
          exact hdst ((eq_of_beq hcontra).symm)

/-- Characterization of the per-record loop of `apply_changes`, relative to
the filesystem `fs0` as it was when the loop started: provided the session
keys are unique and the destinations of the records that will move are
fresh (absent from disk, distinct from every session path, and pairwise
distinct), the loop fixes up the already-applied records in place, counts
one success per dirty record with an existing source, collects the
old-path/new-path pairs of the real moves in order, and logs one event per
dirty record. -/
lemma applyLoop_master (root : String) :
    ∀ (l : List ImageRecord) (st : ApplyLoopState) (fs0 : FileSystem),
      (∀ q ∈ l, fsExists st.fs q.path = fsExists fs0 q.path) →
      (l.map (fun r => r.path)).Nodup →
      (∀ q ∈ l, isMovable root fs0 q = true →
        fsExists st.fs (destOf root q) = false ∧
          ∀ w ∈ l, destOf root q ≠ w.path) →
      l.Pairwise (fun a b => isMovable root fs0 a = true →
        isMovable root fs0 b = true → destOf root a ≠ destOf root b) →
      (l.foldl (applyStep root) st).records = st.records ++ l.map (aaFix root fs0) ∧
        (l.foldl (applyStep root) st).moved_count =
          st.moved_count + l.countP (fun q => q.isDirty && fsExists fs0 q.path) ∧
        (l.foldl (applyStep root) st).paths_to_update =
          st.paths_to_update ++ movedPairs root fs0 l ∧
        (l.foldl (applyStep root) st).report =
          st.report ++ l.filterMap (eventFor root fs0)
  | [], st, fs0, _, _, _, _ => by simp [movedPairs]
  | h :: t, st, fs0, hrel, hnd, hfresh, hpw => by
    have hrel_h : fsExists st.fs h.path = fsExists fs0 h.path := hrel h (by simp)
    have hnd_cons : h.path ∉ List.map (fun r => r.path) t ∧
        (List.map (fun r => r.path) t).Nodup := by
      have h2 := hnd
      simp only [List.map_cons, List.nodup_cons] at h2
      exact h2
    have hnd_t : (t.map (fun r => r.path)).Nodup := hnd_cons.2
    have hpw_cons := List.pairwise_cons.mp hpw
    rw [List.foldl_cons, applyStep_unfold]
    by_cases hd : h.isDirty = true
    · rw [if_pos hd]
      by_cases hex : fsExists fs0 h.path = true
      · rw [hrel_h, hex]
        simp only [Bool.not_true, Bool.false_eq_true, if_false]
        by_cases heq : (h.path == destOf root h) = true
        · rw [if_pos heq]
          have hmv : isMovable root fs0 h = false := by
            simp [isMovable, hd, hex, heq]
          obtain ⟨hr, hm, hu, hrep⟩ := applyLoop_master root t
            { st with
                records := st.records ++ [{ h with initial_label := h.current_label }],
                moved_count := st.moved_count + 1,
                report := st.report ++ [ApplyEvent.alreadyApplied h.path] } fs0
            (fun q hq => hrel q (by simp [hq]))
            hnd_t
            (fun q hq hq2 => ⟨(hfresh q (by simp [hq]) hq2).1,
              fun w hw => (hfresh q (by simp [hq]) hq2).2 w (by simp [hw])⟩)
            hpw_cons.2
          refine ⟨?_, ?_, ?_, ?_⟩
          · rw [hr]
            simp [aaFix, hd, hex, heq]
          · rw [hm, List.countP_cons,
              if_pos (show (h.isDirty && fsExists fs0 h.path) = true by simp [hd, hex])]
            dsimp only
            omega
          · rw [hu]
            simp [movedPairs, hmv]
          · rw [hrep]
            have hev : eventFor root fs0 h = some (ApplyEvent.alreadyApplied h.path) := by
              simp [eventFor, hd, hex, heq]
            simp [hev]
        · rw [if_neg heq]
          have hmv : isMovable root fs0 h = true := by
            simp only [isMovable, hd, hex, Bool.and_true, Bool.true_and]
            simp [heq]
          have hsrc_live : fsExists st.fs h.path = true := hrel_h.trans hex
          have hfresh_h := hfresh h (by simp) hmv
          obtain ⟨hr, hm, hu, hrep⟩ := applyLoop_master root t
            { st with
                fs := fsMove st.fs h.path (destOf root h),
                records := st.records ++ [h],
                moved_count := st.moved_count + 1,
                paths_to_update := st.paths_to_update ++ [(h.path, destOf root h)],
                report := st.report ++ [ApplyEvent.moved h.path (destOf root h)] } fs0
            (fun q hq => by
              simp only
              rw [fsExists_fsMove st.fs h.path (destOf root h) q.path hsrc_live]
              rw [if_neg (fun hc => hfresh_h.2 q (by simp [hq]) hc.symm)]
              rw [if_neg (fun hc => hnd_cons.1 (by
                simp only [List.mem_map]
                exact ⟨q, hq, hc⟩))]
              exact hrel q (by simp [hq]))
            hnd_t
            (fun q hq hq2 => by
              refine ⟨?_, fun w hw => (hfresh q (by simp [hq]) hq2).2 w (by simp [hw])⟩
              simp only
              rw [fsExists_fsMove st.fs h.path (destOf root h) (destOf root q) hsrc_live]
              rw [if_neg (fun hc => (hpw_cons.1 q hq hmv hq2) hc.symm)]
              rw [if_neg (fun hc => (hfresh q (by simp [hq]) hq2).2 h (by simp) hc)]
              exact (hfresh q (by simp [hq]) hq2).1)
            hpw_cons.2
          refine ⟨?_, ?_, ?_, ?_⟩
          · rw [hr]
            simp [aaFix, hd, hex, heq]
          · rw [hm, List.countP_cons,
              if_pos (show (h.isDirty && fsExists fs0 h.path) = true by simp [hd, hex])]
            dsimp only
            omega
          · rw [hu]
            have : movedPairs root fs0 (h :: t) =
                (h.path, destOf root h) :: movedPairs root fs0 t := by
              simp [movedPairs, hmv]
            rw [this]
            simp
          · rw [hrep]
            have hev : eventFor root fs0 h =
                some (ApplyEvent.moved h.path (destOf root h)) := by
              simp [eventFor, hd, hex, heq]
            simp [hev]
      · have hex2 : fsExists fs0 h.path = false := by simpa using hex
        rw [hrel_h, hex2]
        simp only [Bool.not_false, if_true]
        have hmv : isMovable root fs0 h = false := by
          simp [isMovable, hd, hex2]
        obtain ⟨hr, hm, hu, hrep⟩ := applyLoop_master root t
          { st with
              records := st.records ++ [h],
              error_count := st.error_count + 1,
              report := st.report ++ [ApplyEvent.missingSource h.path] } fs0
          (fun q hq => hrel q (by simp [hq]))
          hnd_t
          (fun q hq hq2 => ⟨(hfresh q (by simp [hq]) hq2).1,
            fun w hw => (hfresh q (by simp [hq]) hq2).2 w (by simp [hw])⟩)
          hpw_cons.2
        refine ⟨?_, ?_, ?_, ?_⟩
        · rw [hr]
          simp [aaFix, hd, hex2]
        · rw [hm]
          simp [List.countP_cons, hex2]
        · rw [hu]
          simp [movedPairs, hmv]
        · rw [hrep]
          have hev : eventFor root fs0 h =
              some (ApplyEvent.missingSource h.path) := by
            simp [eventFor, hd, hex2]
          simp [hev]
    · have hd2 : h.isDirty = false := by simpa using hd
      rw [if_neg (by simp [hd2])]
      have hmv : isMovable root fs0 h = false := by simp [isMovable, hd2]
      obtain ⟨hr, hm, hu, hrep⟩ := applyLoop_master root t
        { st with records := st.records ++ [h] } fs0
        (fun q hq => hrel q (by simp [hq]))
        hnd_t
        (fun q hq hq2 => ⟨(hfresh q (by simp [hq]) hq2).1,
          fun w hw => (hfresh q (by simp [hq]) hq2).2 w (by simp [hw])⟩)
        hpw_cons.2
      refine ⟨?_, ?_, ?_, ?_⟩
      · rw [hr]
        simp [aaFix, hd2]
      · rw [hm]
        simp [List.countP_cons, hd2]
      · rw [hu]
        simp [movedPairs, hmv]
      · rw [hrep]
        have hev : eventFor root fs0 h = none := by simp [eventFor, hd2]
        simp [hev]

/-! ### Reconciliation, characterized -/

lemma reconcile_eq_foldl (updates : List (String × String))
    (rs : List ImageRecord) :
    reconcile updates rs =
      rs.foldl (fun acc r => dictInsert acc (stepRec updates r)) [] := by
  unfold reconcile stepRec
  congr 1
  funext acc r
  cases updates.find? (fun u => u.1 == r.path) <;> rfl

lemma foldl_dictInsert_append (updates : List (String × String)) :
    ∀ (rs acc : List ImageRecord),
      ((acc ++ rs.map (stepRec updates)).map (fun r => r.path)).Nodup →
      rs.foldl (fun a r => dictInsert a (stepRec updates r)) acc =
        acc ++ rs.map (stepRec updates)
  | [], acc, _ => by simp
  | r :: rest, acc, hnd => by
    rw [List.foldl_cons]
    have hnd2 := hnd
    rw [List.map_cons, List.map_append, List.map_cons] at hnd2
    have hkey : (stepRec updates r).path ∉ acc.map (fun q => q.path) := by
      intro hin
      have h3 := List.nodup_append.mp hnd2
      exact h3.2.2 hin (by simp)
    have hdict : dictInsert acc (stepRec updates r) = acc ++ [stepRec updates r] := by
      unfold dictInsert
      rw [if_neg (by
        intro hany
        obtain ⟨q, hq, hqp⟩ := List.any_eq_true.mp hany
        exact hkey (List.mem_map.mpr ⟨q, hq, (eq_of_beq hqp)⟩))]
    rw [hdict]
    have hrec := foldl_dictInsert_append updates rest (acc ++ [stepRec updates r]) (by
      simpa using hnd2)
    rw [hrec]
    simp

lemma find?_assoc_of_mem {β : Type} :
    ∀ (l : List (String × β)) (k : String) (v : β),
      (l.map Prod.fst).Nodup → (k, v) ∈ l →
      l.find? (fun u => u.1 == k) = some (k, v)
  | [], _, _, _, hmem => by simp at hmem
  | x :: rest, k, v, hnd, hmem => by
    have hnd2 : x.1 ∉ rest.map Prod.fst ∧ (rest.map Prod.fst).Nodup := by
      have h2 := hnd
      simp only [List.map_cons, List.nodup_cons] at h2
      exact h2
    rcases List.mem_cons.mp hmem with hx | hx
    · rw [← hx]
      simp
    · have hk : k ∈ rest.map Prod.fst := List.mem_map.mpr ⟨(k, v), hx, rfl⟩
      have hx1 : (x.1 == k) = false := by
        apply beq_eq_false_iff_ne.mpr
        intro hc
        exact hnd2.1 (hc ▸ hk)
      have hstep : (x :: rest).find? (fun u => u.1 == k) =
          rest.find? (fun u => u.1 == k) := by simp [hx1]
      rw [hstep]
      exact find?_assoc_of_mem rest k v hnd2.2 hx

lemma filterMap_guard_sublist {α β : Type} (p2 : α → Bool) (g : α → β) :
    ∀ l : List α,
      List.Sublist (l.filterMap (fun a => if p2 a then some (g a) else none))
        (l.map g)
  | [] => List.Sublist.slnil
  | a :: l => by
    by_cases hp : p2 a = true
    · have h1 : (a :: l).filterMap (fun a => if p2 a then some (g a) else none) =
          g a :: l.filterMap (fun a => if p2 a then some (g a) else none) := by
        simp [List.filterMap_cons, hp]
      rw [h1, List.map_cons]
      exact List.Sublist.cons₂ _ (filterMap_guard_sublist p2 g l)
    · have h1 : (a :: l).filterMap (fun a => if p2 a then some (g a) else none) =
          l.filterMap (fun a => if p2 a then some (g a) else none) := by
        simp [List.filterMap_cons, hp]
      rw [h1, List.map_cons]
      exact List.Sublist.cons _ (filterMap_guard_sublist p2 g l)

lemma movedPairs_keys_nodup (root : String) (fs : FileSystem)
    (l : List ImageRecord) (hnd : (l.map (fun r => r.path)).Nodup) :
    ((movedPairs root fs l).map Prod.fst).Nodup := by
  have h1 : (movedPairs root fs l).map Prod.fst =
      l.filterMap (fun q => if isMovable root fs q then some q.path else none) := by
    unfold movedPairs
    rw [List.map_filterMap]
    have h2 : (fun q => (if isMovable root fs q then
        some (q.path, destOf root q) else none).map Prod.fst) =
        (fun q : ImageRecord => if isMovable root fs q then some q.path else none) :=
      funext (fun q => by split <;> rfl)
    rw [h2]
  rw [h1]
  exact (filterMap_guard_sublist (isMovable root fs) (fun r => r.path) l).nodup hnd

lemma mem_movedPairs (root : String) (fs : FileSystem) (l : List ImageRecord)
    (q : ImageRecord) (hq : q ∈ l) (hmv : isMovable root fs q = true) :
    (q.path, destOf root q) ∈ movedPairs root fs l :=
  List.mem_filterMap.mpr ⟨q, hq, by simp [hmv]⟩

lemma not_mem_movedPairs_keys (root : String) (fs : FileSystem)
    (l : List ImageRecord) (hnd : (l.map (fun r => r.path)).Nodup)
    (q : ImageRecord) (hq : q ∈ l) (hmv : isMovable root fs q = false) :
    ∀ u ∈ movedPairs root fs l, (u.1 == q.path) = false := by
  intro u hu
  obtain ⟨m, hm, hmu⟩ := List.mem_filterMap.mp hu
  by_cases hmvm : isMovable root fs m = true
  · rw [if_pos hmvm] at hmu
    have h5 := Option.some.inj hmu
    subst h5
    apply beq_eq_false_iff_ne.mpr
    intro hc
    have hinj := List.inj_on_of_nodup_map hnd
    have hmq : m = q := hinj hm hq hc
    rw [hmq] at hmvm
    rw [hmvm] at hmv
    exact Bool.true_eq_false.mp hmv
  · rw [if_neg hmvm] at hmu
    exact absurd hmu (by simp)

lemma countP_split {α : Type} (p2 q2 : α → Bool) :
    ∀ l : List α,
      l.countP p2 =
        l.countP (fun a => p2 a && q2 a) + l.countP (fun a => p2 a && !q2 a)
  | [] => rfl
  | a :: l => by
    rw [List.countP_cons, List.countP_cons, List.countP_cons, countP_split p2 q2 l]
    by_cases hp : p2 a = true <;> by_cases hq : q2 a = true <;>
      simp [hp, hq] <;> omega

lemma movedFix_path (root : String) (fs : FileSystem) (q : ImageRecord) :
    (movedFix root fs q).path =
      if isMovable root fs q then destOf root q else q.path := by
  unfold movedFix isMovable
  by_cases hde : (q.isDirty && fsExists fs q.path) = true
  · rw [if_pos hde]
    by_cases hpd : (q.path == destOf root q) = true
    · rw [if_neg (by simp [hde, hpd])]
      exact (eq_of_beq hpd).symm
    · rw [if_pos (by simp [hde, hpd])]
  · rw [if_neg hde, if_neg (by simp [hde])]

lemma applyChanges_unfold (root : String) (s : SessionState) (fs : FileSystem)
    (h : (s.pending_changes == 0) = false) :
    applyChanges root s fs =
      ({ image_data :=
           if (s.image_data.foldl (applyStep root)
                { fs := fs, records := [], moved_count := 0, error_count := 0,
                  paths_to_update := [], report := [] }).paths_to_update.isEmpty then
             (s.image_data.foldl (applyStep root)
                { fs := fs, records := [], moved_count := 0, error_count := 0,
                  paths_to_update := [], report := [] }).records
           else
             reconcile
               (s.image_data.foldl (applyStep root)
                  { fs := fs, records := [], moved_count := 0, error_count := 0,
                    paths_to_update := [], report := [] }).paths_to_update
               (s.image_data.foldl (applyStep root)
                  { fs := fs, records := [], moved_count := 0, error_count := 0,
                    paths_to_update := [], report := [] }).records,
         pending_changes :=
           if s.pending_changes -
               ((s.image_data.foldl (applyStep root)
                  { fs := fs, records := [], moved_count := 0, error_count := 0,
                    paths_to_update := [], report := [] }).moved_count : Int) < 0 then 0
           else s.pending_changes -
               ((s.image_data.foldl (applyStep root)
                  { fs := fs, records := [], moved_count := 0, error_count := 0,
                    paths_to_update := [], report := [] }).moved_count : Int) },
       (s.image_data.foldl (applyStep root)
          { fs := fs, records := [], moved_count := 0, error_count := 0,
            paths_to_update := [], report := [] }).fs,
       (s.image_data.foldl (applyStep root)
          { fs := fs, records := [], moved_count := 0, error_count := 0,
            paths_to_update := [], report := [] }).report) := by
  unfold applyChanges
  rw [if_neg (by simp [h])]

/-- Characterization of a whole `apply_changes` call under the freshness
hypotheses: every dirty record whose source exists is committed and re-keyed
to its destination in place (order preserved), every other record is
untouched, the counter becomes the number of dirty records whose source is
missing, and each such record gets a missing-source event in the report. -/
lemma applyChanges_master (root : String) (s : SessionState) (fs : FileSystem)
    (hnd : (recPaths s.image_data).Nodup)
    (hinv : s.pending_changes = (countDirty s.image_data : Int))
    (hfresh : ∀ q ∈ s.image_data, isMovable root fs q = true →
      fsExists fs (destOf root q) = false ∧
        ∀ w ∈ s.image_data, destOf root q ≠ w.path)
    (hpw : s.image_data.Pairwise (fun a b => isMovable root fs a = true →
      isMovable root fs b = true → destOf root a ≠ destOf root b)) :
    (applyChanges root s fs).1.image_data = s.image_data.map (movedFix root fs) ∧
      (applyChanges root s fs).1.pending_changes =
        (s.image_data.countP (fun q => q.isDirty && !fsExists fs q.path) : Int) ∧
      ∀ q ∈ s.image_data, q.isDirty = true → fsExists fs q.path = false →
        ApplyEvent.missingSource q.path ∈ (applyChanges root s fs).2.2 := by
  have hndmap : (s.image_data.map (fun r => r.path)).Nodup := by
    simpa [recPaths] using hnd
  have haa_nomov : ∀ q ∈ s.image_data, isMovable root fs q = false →
      aaFix root fs q = movedFix root fs q := by
    intro q _ hqm
    unfold aaFix movedFix
    by_cases hde : (q.isDirty && fsExists fs q.path) = true
    · have hpd : (q.path == destOf root q) = true := by
        have h6 := hqm
        unfold isMovable at h6
        rcases Bool.and_eq_true .. |>.mp hde with ⟨h7, h8⟩
        simp [h7, h8] at h6
        exact beq_iff_eq.mpr h6
      rw [if_pos (by simp [hde, hpd]), if_pos hde]
      have hd2 : destOf root q = q.path := (eq_of_beq hpd).symm
      rw [hd2]
    · rw [if_neg (by simp [hde]), if_neg hde]
  by_cases hzero : (s.pending_changes == 0) = true
  · have hz : s.pending_changes = 0 := by simpa using hzero
    have hcd : countDirty s.image_data = 0 := by
      have h9 := hinv
      rw [hz] at h9
      exact_mod_cast h9.symm
    have hclean : ∀ q ∈ s.image_data, q.isDirty = false := by
      intro q hq
      have := List.countP_eq_zero.mp hcd q hq
      simpa using this
    have happ : applyChanges root s fs = (s, fs, []) := by
      unfold applyChanges
      rw [if_pos hzero]
    rw [happ]
    refine ⟨?_, ?_, ?_⟩
    · have h10 : s.image_data.map (movedFix root fs) = s.image_data.map id :=
        List.map_congr_left (fun q hq => by simp [movedFix, hclean q hq])
      rw [h10, List.map_id]
    · have h11 : s.image_data.countP (fun q => q.isDirty && !fsExists fs q.path) = 0 :=
        List.countP_eq_zero.mpr (fun q hq => by simp [hclean q hq])
      rw [hz, h11]
      simp
    · intro q hq hdq
      rw [hclean q hq] at hdq
      exact absurd hdq (by simp)
  · have hzero2 : (s.pending_changes == 0) = false := by simpa using hzero
    obtain ⟨hr, hm, hu, hrep⟩ := applyLoop_master root s.image_data
      { fs := fs, records := [], moved_count := 0, error_count := 0,
        paths_to_update := [], report := [] } fs
      (fun q _ => rfl) hndmap (fun q hq hq2 => hfresh q hq hq2) hpw
    dsimp only at hr hm hu hrep
    rw [List.nil_append] at hr hu hrep
    rw [Nat.zero_add] at hm
    rw [applyChanges_unfold root s fs hzero2]
    refine ⟨?_, ?_, ?_⟩
    · dsimp only
      rw [hu, hr]
      by_cases hemp : (movedPairs root fs s.image_data).isEmpty = true
      · rw [if_pos hemp]
        have hnil : movedPairs root fs s.image_data = [] := List.isEmpty_iff.mp hemp
        apply List.map_congr_left
        intro q hq
        apply haa_nomov q hq
        by_cases hmv : isMovable root fs q = true
        · exact absurd (hnil ▸ mem_movedPairs root fs s.image_data q hq hmv)
            (List.not_mem_nil _)
        · simpa using hmv
      · rw [if_neg hemp]
        have hcomb : (s.image_data.map (aaFix root fs)).map
            (stepRec (movedPairs root fs s.image_data)) =
            s.image_data.map (movedFix root fs) := by
          rw [List.map_map]
          apply List.map_congr_left
          intro q hq
          simp only [Function.comp]
          by_cases hmv : isMovable root fs q = true
          · have haq : aaFix root fs q = q := by
              unfold aaFix
              rw [if_neg]
              intro hc
              have h12 := hmv
              unfold isMovable at h12
              rcases Bool.and_eq_true .. |>.mp hc with ⟨_, h14⟩
              simp [h14] at h12
            rw [haq]
            unfold stepRec
            rw [find?_assoc_of_mem (movedPairs root fs s.image_data) q.path
              (destOf root q) (movedPairs_keys_nodup root fs s.image_data hndmap)
              (mem_movedPairs root fs s.image_data q hq hmv)]
            unfold movedFix
            rw [if_pos]
            have h15 := hmv
            unfold isMovable at h15
            rcases Bool.and_eq_true .. |>.mp h15 with ⟨h16, _⟩
            exact h16
          · have hmv2 : isMovable root fs q = false := by simpa using hmv
            have hp : (aaFix root fs q).path = q.path := by
              unfold aaFix
              split <;> rfl
            have hfind : (movedPairs root fs s.image_data).find?
                (fun u => u.1 == (aaFix root fs q).path) = none := by
              rw [List.find?_eq_none]
              intro u hu
              have := not_mem_movedPairs_keys root fs s.image_data hndmap q hq hmv2 u hu
              rw [hp]
              simp [this]
            unfold stepRec
            rw [hfind]
            exact haa_nomov q hq hmv2
        have hKeys : ((([] : List ImageRecord) ++
            (s.image_data.map (aaFix root fs)).map
              (stepRec (movedPairs root fs s.image_data))).map
                (fun r => r.path)).Nodup := by
          rw [List.nil_append, hcomb, List.map_map]
          have hP1 : s.image_data.Pairwise (fun a b => a.path ≠ b.path) :=
            List.pairwise_map.mp hndmap
          have hP : s.image_data.Pairwise (fun a b =>
              (movedFix root fs a).path ≠ (movedFix root fs b).path) := by
            apply (hP1.and hpw).imp_of_mem
            intro a b ha hb hab
            rw [movedFix_path, movedFix_path]
            by_cases hma : isMovable root fs a = true
            · rw [if_pos hma]
              by_cases hmb : isMovable root fs b = true
              · rw [if_pos hmb]
                exact hab.2 hma hmb
              · rw [if_neg hmb]
                exact (hfresh a ha hma).2 b hb
            · rw [if_neg hma]
              by_cases hmb : isMovable root fs b = true
              · rw [if_pos hmb]
                intro hc
                exact (hfresh b hb hmb).2 a ha hc.symm
              · rw [if_neg hmb]
                exact hab.1
          exact List.pairwise_map.mpr hP
        rw [reconcile_eq_foldl,
          foldl_dictInsert_append (movedPairs root fs s.image_data)
            (s.image_data.map (aaFix root fs)) [] hKeys,
          List.nil_append, hcomb]
    · dsimp only
      rw [hm]
      have hsplit : s.image_data.countP (fun r => r.isDirty) =
          s.image_data.countP (fun q => q.isDirty && fsExists fs q.path) +
            s.image_data.countP (fun q => q.isDirty && !fsExists fs q.path) :=
        countP_split (fun r => r.isDirty) (fun r => fsExists fs r.path) s.image_data
      have hcd2 : countDirty s.image_data = s.image_data.countP (fun r => r.isDirty) :=
        rfl
      rw [hinv, hcd2]
      split_ifs with hlt
      · omega
      · omega
    · intro q hq hdq hex
      dsimp only
      rw [hrep]
      apply List.mem_filterMap.mpr
      exact ⟨q, hq, by simp [eventFor, hdq, hex]⟩

/-! ### C4 -/

/-- C4 (code bug): a reachable apply in which every dirty record's move
succeeds, yet the claim's conclusion fails.  `sessionStaleMerge` holds a
clean record at `r/center/x.jpg` whose file was deleted externally and the
dirty record `r/not_center/x.jpg` relabeled to center; the single move
genuinely succeeds (source present, destination absent on disk, one
`Moved` event, no failure, counter 1 to 0), but the reconciliation loop
assigns the moved record to the EXISTING dict key `r/center/x.jpg` of the
stale clean record: the session shrinks from two records to one, the clean
record is merged away, and the moved record ends up at the clean record's
position 0 instead of keeping its own insertion-order position 1 — so the
session is not the original list with the moved key updated in place, as
the claim requires. -/
theorem apply_success_merges_stale_record :
    sessionStaleMerge.image_data.length = 2 ∧
      applyChanges "r" sessionStaleMerge fsOnlyNotCenter =
        ({ image_data := [recXCommitted], pending_changes := 0 },
         [("r/center/x.jpg", 2)],
         [ApplyEvent.moved "r/not_center/x.jpg" "r/center/x.jpg"]) := by
  decide

/-! ### C6 -/

/-- C6 (code bug): a dirty record whose source file is missing does get its
`MissingSource` failure recorded, but it does not remain in the session and
is no longer consistently counted.  In `sessionMissingClobber` the record
`r/center/x.jpg` (relabeled to not_center) has its source deleted
externally, and the second dirty record `r/not_center/x.jpg` is relabeled
to center.  The second record's move succeeds and its new key
`r/center/x.jpg` collides with the missing-source record's key: the
reconciliation dict assignment overwrites that entry, so the missing-source
record vanishes from the session — erasing exactly the state the claim says
must not be mutated — and the counter desyncs: `pending_changes` ends at 1
while the resulting session holds 0 dirty records. -/
theorem apply_missing_source_record_clobbered :
    applyChanges "r" sessionMissingClobber fsOnlyNotCenter =
        ({ image_data := [recXCommitted], pending_changes := 1 },
         [("r/center/x.jpg", 2)],
         [ApplyEvent.missingSource "r/center/x.jpg",
          ApplyEvent.moved "r/not_center/x.jpg" "r/center/x.jpg"]) ∧
      countDirty (applyChanges "r" sessionMissingClobber fsOnlyNotCenter).1.image_data = 0 ∧
      recDirtyMissing ∉ (applyChanges "r" sessionMissingClobber fsOnlyNotCenter).1.image_data := by
  decide

end ImageReviewer
